import Mathlib

set_option maxRecDepth 100000

/-!
Shallow embedding of the host-software reconciliation engine
(`server/datastore/mysql/software.go` of the fleet repository):
the key codec, the set differ, the catalog resolver, the membership
writer, the loader and the reconciliation orchestrator, together with
proofs of the specified properties.

Go strings are byte sequences; `len`, slicing, `strings.Split` and
`strings.Join` all operate on bytes, so a Go string is modelled as a
`List Nat` of byte values.  The store is modelled as explicit state:
a catalog relation, a membership relation, an auto-increment counter,
a fault-injection schedule (each SQL statement consumes one slot, and
a `some e` slot makes that statement fail with `e`), and a log of the
SQL statements issued.
-/

namespace FleetSoftware

/-- A Go string, as its byte sequence. -/
abbrev GoStr := List Nat

/-- The `fleet.Software` record: catalog identifier plus the
(name, version, source) triple. -/
structure Software where
  id : Nat
  name : GoStr
  version : GoStr
  source : GoStr
deriving DecidableEq, Repr

/-- Constant `maxSoftwareNameLen` from the source. -/
def maxSoftwareNameLen : Nat := 255

/-- Constant `maxSoftwareVersionLen` from the source. -/
def maxSoftwareVersionLen : Nat := 255

/-- Constant `maxSoftwareSourceLen` from the source. -/
def maxSoftwareSourceLen : Nat := 64

/-- The separator used by the codec: the byte of `"\u0000"`. -/
def sepByte : Nat := 0

/-- Go `truncateString`: `str[:length]` when `len(str) > length`. -/
def truncateString (str : GoStr) (length : Nat) : GoStr :=
  if str.length > length then str.take length else str

/-- Go `strings.Join(elems, sep)` on byte strings. -/
def stringsJoin : List GoStr → GoStr → GoStr
  | [], _ => []
  | [x], _ => x
  | x :: y :: xs, sep => x ++ sep ++ stringsJoin (y :: xs) sep

/-- Go `strings.Split(s, sep)` for a one-byte separator: splits at every
occurrence of the byte, always returning at least one (possibly empty)
part. -/
def stringsSplit (sep : Nat) : GoStr → List GoStr
  | [] => [[]]
  | b :: bs =>
    if b = sep then [] :: stringsSplit sep bs
    else
      match stringsSplit sep bs with
      | [] => [[b]]
      | p :: ps => (b :: p) :: ps

/-- Go `softwareToUniqueString`: joins name, version and source with the
NUL separator.  No truncation happens here. -/
def softwareToUniqueString (s : Software) : GoStr :=
  stringsJoin [s.name, s.version, s.source] [sepByte]

/-- Go `uniqueStringToSoftware`: splits on the separator and reads
`parts[0]`, `parts[1]`, `parts[2]`, truncating each to its maximum
length.  The Go code indexes the parts unconditionally, so an input
with fewer than two separator bytes makes the access out of bounds;
that fallible access is modelled by returning `none`. -/
def uniqueStringToSoftware (s : GoStr) : Option Software :=
  match stringsSplit sepByte s with
  | p0 :: p1 :: p2 :: _ =>
    some { id := 0
           name := truncateString p0 maxSoftwareNameLen
           version := truncateString p1 maxSoftwareVersionLen
           source := truncateString p2 maxSoftwareSourceLen }
  | _ => none

/-- Go `softwareSliceToSet`: the set of dedup keys of a software slice
(a Go `map[string]bool` holds each key once). -/
def softwareSliceToSet (softwares : List Software) : List GoStr :=
  (softwares.map softwareToUniqueString).dedup

/-- Go `softwareSliceToIdMap`: a map from dedup key to catalog id,
where a later entry with the same key overwrites an earlier one. -/
def mapSet (m : List (GoStr × Nat)) (k : GoStr) (v : Nat) : List (GoStr × Nat) :=
  m.filter (fun kv => decide (kv.1 ≠ k)) ++ [(k, v)]

/-- Go `softwareSliceToIdMap`, built key by key. -/
def softwareSliceToIdMap (softwareSlice : List Software) : List (GoStr × Nat) :=
  softwareSlice.foldl (fun m s => mapSet m (softwareToUniqueString s) s.id) []

/-- Lookup in an association-list map, as the Go `m[k]` read. -/
def mapLookup (m : List (GoStr × Nat)) (k : GoStr) : Option Nat :=
  (m.find? (fun kv => decide (kv.1 = k))).map (fun kv => kv.2)

/-- Go `nothingChanged`: false when the lengths differ, otherwise every
incoming dedup key must occur among the current dedup keys. -/
def nothingChanged (current incoming : List Software) : Bool :=
  if current.length ≠ incoming.length then false
  else
    incoming.all (fun s =>
      decide (softwareToUniqueString s ∈ current.map softwareToUniqueString))

/-- A store error: `transient` marks the serialization/deadlock class
that the transaction wrapper retries. -/
structure Err where
  transient : Bool
  msg : String
deriving DecidableEq, Repr

/-- Message of `errors.Wrap` in `SaveHostSoftware`. -/
def msgSaveHostSoftware : String := "save host software"

/-- Message of `errors.Wrap` in the empty-incoming deletion. -/
def msgClearJoinTable : String := "clear join table entries"

/-- Message of `errors.Wrap` in `applyChangesForNewSoftware`. -/
def msgLoadingCurrent : String := "loading current software for host"

/-- Message of `errors.Wrap` in `hostSoftwareFromHostID`. -/
def msgLoadHostSoftware : String := "load host software"

/-- Message of `errors.Wrap` around the catalog insert. -/
def msgInsertSoftware : String := "insert software"

/-- Message of `errors.Wrap` around the membership insert. -/
def msgInsertHostSoftware : String := "insert host software"

/-- Message of `errors.Wrap` around the membership delete. -/
def msgDeleteHostSoftware : String := "delete host software"

/-- Go `errors.Wrap(err, m)`: prefixes the message, keeping the error
class visible to the retry wrapper. -/
def wrapErr (e : Err) (m : String) : Err :=
  { transient := e.transient, msg := m ++ ": " ++ e.msg }

/-- One SQL statement issued against the store. -/
inductive Op where
  | beginTx : Op
  | deleteAllHostSoftware (hostId : Nat) : Op
  | deleteHostSoftwareIn (hostId : Nat) (softwareIds : List Nat) : Op
  | selectSoftwareByTriple (name version source : GoStr) : Op
  | insertIgnoreSoftware (name version source : GoStr) : Op
  | insertHostSoftware (rows : List (Nat × Nat)) : Op
  | selectHostSoftware (hostId : Nat) : Op
deriving DecidableEq, Repr

/-- The persisted data: the `software` catalog relation, the
`host_software` membership relation as (host_id, software_id) pairs,
and the catalog auto-increment counter. -/
structure DBData where
  software : List Software
  hostSoftware : List (Nat × Nat)
  nextId : Nat
deriving DecidableEq, Repr

/-- The store state threaded through every operation: persisted data,
the fault-injection schedule, and the log of issued statements. -/
structure St where
  data : DBData
  errs : List (Option Err)
  log : List Op
deriving DecidableEq, Repr

/-- Consume one slot of the fault-injection schedule; an exhausted
schedule means no failure. -/
def popErr (st : St) : Option Err × St :=
  match st.errs with
  | [] => (none, st)
  | e :: rest => (e, { st with errs := rest })

/-- Record one issued SQL statement. -/
def logOp (op : Op) (st : St) : St :=
  { st with log := st.log ++ [op] }

/-- Equality on the catalog uniqueness key (name, version, source). -/
def sameTriple (r s : Software) : Bool :=
  decide (r.name = s.name) && decide (r.version = s.version)
    && decide (r.source = s.source)

/-- The statement `DELETE FROM host_software WHERE host_id = ?`. -/
def execDeleteAllHostSoftware (hostId : Nat) (st : St) :
    Except Err Unit × St :=
  let st := logOp (.deleteAllHostSoftware hostId) st
  match popErr st with
  | (some e, st') => (.error e, st')
  | (none, st') =>
    (.ok (), { st' with data := { st'.data with
        hostSoftware := st'.data.hostSoftware.filter
          (fun p => decide (p.1 ≠ hostId)) } })

/-- The statement `SELECT id FROM software WHERE name = ? and
version = ? and source = ?`. -/
def selectSoftwareIds (s : Software) (st : St) :
    Except Err (List Nat) × St :=
  let st := logOp (.selectSoftwareByTriple s.name s.version s.source) st
  match popErr st with
  | (some e, st') => (.error e, st')
  | (none, st') =>
    (.ok ((st'.data.software.filter (fun r => sameTriple r s)).map
      (fun r => r.id)), st')

/-- The statement `INSERT IGNORE INTO software (name, version, source)
VALUES (?, ?, ?)` followed by `result.LastInsertId()`: when a row with
the same uniqueness triple already exists the insert is ignored and the
reported last-insert id is 0; otherwise the row is inserted with the
next auto-increment id, which is reported. -/
def execInsertIgnoreSoftware (s : Software) (st : St) :
    Except Err Nat × St :=
  let st := logOp (.insertIgnoreSoftware s.name s.version s.source) st
  match popErr st with
  | (some e, st') => (.error e, st')
  | (none, st') =>
    if st'.data.software.any (fun r => sameTriple r s) then
      (.ok 0, st')
    else
      let newId := st'.data.nextId
      (.ok newId, { st' with data := { st'.data with
          software := st'.data.software ++ [{ s with id := newId }],
          nextId := newId + 1 } })

/-- The statement `DELETE FROM host_software WHERE host_id = ? AND
software_id IN (...)`. -/
def execDeleteHostSoftwareIn (hostId : Nat) (ids : List Nat) (st : St) :
    Except Err Unit × St :=
  let st := logOp (.deleteHostSoftwareIn hostId ids) st
  match popErr st with
  | (some e, st') => (.error e, st')
  | (none, st') =>
    (.ok (), { st' with data := { st'.data with
        hostSoftware := st'.data.hostSoftware.filter
          (fun p => decide (¬ (p.1 = hostId ∧ p.2 ∈ ids))) } })

/-- The statement `INSERT INTO host_software (host_id, software_id)
VALUES (?,?),...`. -/
def execInsertHostSoftware (rows : List (Nat × Nat)) (st : St) :
    Except Err Unit × St :=
  let st := logOp (.insertHostSoftware rows) st
  match popErr st with
  | (some e, st') => (.error e, st')
  | (none, st') =>
    (.ok (), { st' with data := { st'.data with
        hostSoftware := st'.data.hostSoftware ++ rows } })

/-- Result set of `SELECT * FROM software WHERE id IN (SELECT
software_id FROM host_software WHERE host_id = ?)`. -/
def hostSoftwareRows (hostId : Nat) (d : DBData) : List Software :=
  d.software.filter (fun r =>
    d.hostSoftware.any (fun p =>
      decide (p.1 = hostId) && decide (p.2 = r.id)))

/-- Issue the loader query against the store. -/
def selectHostSoftware (hostId : Nat) (st : St) :
    Except Err (List Software) × St :=
  let st := logOp (.selectHostSoftware hostId) st
  match popErr st with
  | (some e, st') => (.error e, st')
  | (none, st') => (.ok (hostSoftwareRows hostId st'.data), st')

/-- The `fleet.HostSoftware` aggregate: the staged software collection
and the dirty flag. -/
structure HostSoftware where
  software : List Software
  modified : Bool
deriving DecidableEq, Repr

/-- The slice of `fleet.Host` the engine touches. -/
structure Host where
  id : Nat
  hostSoftware : HostSoftware
deriving DecidableEq, Repr

/-- Go `getOrGenerateSoftwareId`: select by the triple; when a row
exists return `existingId[0]`; otherwise insert-ignore the triple and
return the last-insert id as reported by the driver, without any
re-query. -/
def getOrGenerateSoftwareId (s : Software) (st : St) :
    Except Err Nat × St :=
  match selectSoftwareIds s st with
  | (.error e, st') => (.error e, st')
  | (.ok existingId, st') =>
    match existingId with
    | i :: _ => (.ok i, st')
    | [] =>
      match execInsertIgnoreSoftware s st' with
      | (.error e, st'') => (.error (wrapErr e msgInsertSoftware), st'')
      | (.ok id, st'') => (.ok id, st'')

/-- Go `getOrGenerateSoftwareId` as executed under the racing schedule
of the specification: a concurrent transaction commits catalog row
`other` between this resolver's SELECT and its INSERT IGNORE.  Apart
from that single interference point the statements and their handling
are exactly those of `getOrGenerateSoftwareId`. -/
def getOrGenerateSoftwareIdRaced (other : Software) (s : Software)
    (st : St) : Except Err Nat × St :=
  match selectSoftwareIds s st with
  | (.error e, st') => (.error e, st')
  | (.ok existingId, st') =>
    match existingId with
    | i :: _ => (.ok i, st')
    | [] =>
      let st' := { st' with data := { st'.data with
          software := st'.data.software ++ [other] } }
      match execInsertIgnoreSoftware s st' with
      | (.error e, st'') => (.error (wrapErr e msgInsertSoftware), st'')
      | (.ok id, st'') => (.ok id, st'')

/-- Go `deleteUninstalledHostSoftware`: collect the catalog ids of
current keys absent from the incoming set; when nothing was collected
(the statement argument list holds only the host id) return without
building any deletion, otherwise issue one batched deletion. -/
def deleteUninstalledHostSoftware (hostID : Nat)
    (currentIdmap : List (GoStr × Nat)) (incomingBitmap : List GoStr)
    (st : St) : Except Err Unit × St :=
  let deletesHostSoftware :=
    (currentIdmap.filter (fun kv => decide (kv.1 ∉ incomingBitmap))).map
      (fun kv => kv.2)
  if deletesHostSoftware.length = 0 then (.ok (), st)
  else
    match execDeleteHostSoftwareIn hostID deletesHostSoftware st with
    | (.error e, st') => (.error (wrapErr e msgDeleteHostSoftware), st')
    | (.ok _, st') => (.ok (), st')

/-- The collection loop of Go `insertNewInstalledHostSoftware`: for
every incoming key not already in the current map, resolve its catalog
id (decoding the key back to a software triple first, as the Go code
does) and collect the (host_id, software_id) pair.  A key with fewer
than two separators would make the Go decoder index out of bounds;
that is modelled as a store-free runtime error. -/
def collectNewHostSoftware (hostID : Nat)
    (currentIdmap : List (GoStr × Nat)) :
    List GoStr → St → Except Err (List (Nat × Nat)) × St
  | [], st => (.ok [], st)
  | k :: ks, st =>
    if (mapLookup currentIdmap k).isSome then
      collectNewHostSoftware hostID currentIdmap ks st
    else
      match uniqueStringToSoftware k with
      | none =>
        (.error { transient := false, msg := "index out of range" }, st)
      | some s =>
        match getOrGenerateSoftwareId s st with
        | (.error e, st') => (.error e, st')
        | (.ok id, st') =>
          match collectNewHostSoftware hostID currentIdmap ks st' with
          | (.error e, st'') => (.error e, st'')
          | (.ok rest, st'') => (.ok ((hostID, id) :: rest), st'')

/-- Go `insertNewInstalledHostSoftware`: collect the new pairs, then
issue one batched membership insertion when the collection is
non-empty. -/
def insertNewInstalledHostSoftware (hostID : Nat)
    (currentIdmap : List (GoStr × Nat)) (incomingBitmap : List GoStr)
    (st : St) : Except Err Unit × St :=
  match collectNewHostSoftware hostID currentIdmap incomingBitmap st with
  | (.error e, st') => (.error e, st')
  | (.ok insertsHostSoftware, st') =>
    if insertsHostSoftware.length > 0 then
      match execInsertHostSoftware insertsHostSoftware st' with
      | (.error e, st'') =>
        (.error (wrapErr e msgInsertHostSoftware), st'')
      | (.ok _, st'') => (.ok (), st'')
    else (.ok (), st')

/-- Go `hostSoftwareFromHostID`: the loader query, usable inside or
outside a transaction with identical semantics, wrapping failures. -/
def hostSoftwareFromHostID (hostId : Nat) (st : St) :
    Except Err (List Software) × St :=
  match selectHostSoftware hostId st with
  | (.error e, st') => (.error (wrapErr e msgLoadHostSoftware), st')
  | (.ok result, st') => (.ok result, st')

/-- Go `applyChangesForNewSoftware`: load the current collection, stop
when nothing changed, otherwise run the delete pass then the insert
pass on the key map and key set. -/
def applyChangesForNewSoftware (host : Host) (st : St) :
    Except Err Unit × St :=
  match hostSoftwareFromHostID host.id st with
  | (.error e, st') => (.error (wrapErr e msgLoadingCurrent), st')
  | (.ok storedCurrentSoftware, st') =>
    if nothingChanged storedCurrentSoftware host.hostSoftware.software then
      (.ok (), st')
    else
      let current := softwareSliceToIdMap storedCurrentSoftware
      let incoming := softwareSliceToSet host.hostSoftware.software
      match deleteUninstalledHostSoftware host.id current incoming st' with
      | (.error e, st'') => (.error e, st'')
      | (.ok _, st'') =>
        insertNewInstalledHostSoftware host.id current incoming st''

/-- Modelled from the spec: the retry budget of the transaction
wrapper, a fixed attempt count (section 4.5); its exact value decides
none of the verified properties. -/
def txAttempts : Nat := 5

/-- Modelled from the spec: the transaction wrapper `withRetryTxx` is
not among the given sources.  Per section 4.5 it opens a transaction,
runs the body, commits on success, and on a transient
(serialization/deadlock-class) failure rolls the data back and retries
the whole body up to the fixed attempt count; a non-transient failure
or an exhausted budget rolls back and surfaces the error. -/
def runTxAttempts (body : St → Except Err Unit × St) :
    Nat → St → Except Err Unit × St
  | 0, st => (.error { transient := true, msg := "retry budget exceeded" }, st)
  | n + 1, st =>
    let snapshot := st.data
    let st₁ := logOp .beginTx st
    match body st₁ with
    | (.ok _, st₂) => (.ok (), st₂)
    | (.error e, st₂) =>
      let st₃ := { st₂ with data := snapshot }
      if e.transient && n ≠ 0 then runTxAttempts body n st₃
      else (.error e, st₃)

/-- Modelled from the spec: `withRetryTxx` with the full budget. -/
def withRetryTxx (body : St → Except Err Unit × St) (st : St) :
    Except Err Unit × St :=
  runTxAttempts body txAttempts st

/-- The transaction body of Go `SaveHostSoftware`: with an empty
incoming collection, one bulk deletion of the host's membership rows;
otherwise the diff-and-write path. -/
def saveHostSoftwareTx (host : Host) (st : St) : Except Err Unit × St :=
  if host.hostSoftware.software.length = 0 then
    match execDeleteAllHostSoftware host.id st with
    | (.error e, st') => (.error (wrapErr e msgClearJoinTable), st')
    | (.ok _, st') => (.ok (), st')
  else
    applyChangesForNewSoftware host st

/-- Go `SaveHostSoftware`: return at once when the aggregate is not
modified; otherwise run the transaction body under the retry wrapper,
clearing the dirty flag only after a successful commit and wrapping
any surfaced error. -/
def SaveHostSoftware (host : Host) (st : St) :
    Host × (Except Err Unit × St) :=
  if host.hostSoftware.modified = false then (host, (.ok (), st))
  else
    match withRetryTxx (saveHostSoftwareTx host) st with
    | (.error e, st') =>
      (host, (.error (wrapErr e msgSaveHostSoftware), st'))
    | (.ok _, st') =>
      ({ host with hostSoftware :=
          { host.hostSoftware with modified := false } },
        (.ok (), st'))

/-- Go `LoadHostSoftware`: reset the aggregate's software state (empty
collection, dirty flag cleared) before reading, then fill the
collection from the loader on success. -/
def LoadHostSoftware (host : Host) (st : St) :
    Host × (Except Err Unit × St) :=
  let host₀ : Host :=
    { host with hostSoftware := { software := [], modified := false } }
  match hostSoftwareFromHostID host₀.id st with
  | (.error e, st') => (host₀, (.error e, st'))
  | (.ok software, st') =>
    ({ host₀ with hostSoftware :=
        { host₀.hostSoftware with software := software } },
      (.ok (), st'))

/-! Codec lemmas. -/

theorem stringsSplit_ne_nil (sep : Nat) (l : GoStr) :
    stringsSplit sep l ≠ [] := by
  induction l with
  | nil => simp [stringsSplit]
  | cons b bs ih =>
    by_cases hb : b = sep
    · simp [stringsSplit, hb]
    · cases h : stringsSplit sep bs with
      | nil => exact absurd h ih
      | cons p ps => simp [stringsSplit, hb, h]

theorem stringsSplit_of_not_mem (sep : Nat) (c : GoStr) (hc : sep ∉ c) :
    stringsSplit sep c = [c] := by
  induction c with
  | nil => simp [stringsSplit]
  | cons b bs ih =>
    have hb : b ≠ sep := fun h => hc (h ▸ List.mem_cons_self b bs)
    have hbs : sep ∉ bs := fun h => hc (List.mem_cons_of_mem b h)
    simp [stringsSplit, hb, ih hbs]

theorem stringsSplit_append_sep (sep : Nat) (a rest : GoStr)
    (ha : sep ∉ a) :
    stringsSplit sep (a ++ sep :: rest) = a :: stringsSplit sep rest := by
  induction a with
  | nil => simp [stringsSplit]
  | cons b bs ih =>
    have hb : b ≠ sep := fun h => ha (h ▸ List.mem_cons_self b bs)
    have hbs : sep ∉ bs := fun h => ha (List.mem_cons_of_mem b h)
    simp only [List.cons_append, stringsSplit, hb, if_false]
    rw [show bs.append (sep :: rest) = bs ++ sep :: rest from rfl, ih hbs]

theorem length_stringsSplit (sep : Nat) (l : GoStr) :
    (stringsSplit sep l).length = l.count sep + 1 := by
  induction l with
  | nil => simp [stringsSplit]
  | cons b bs ih =>
    by_cases hb : b = sep
    · simp [stringsSplit, hb, List.count_cons, ih]
    · cases h : stringsSplit sep bs with
      | nil => exact absurd h (stringsSplit_ne_nil sep bs)
      | cons p ps =>
        have hbsep : (b == sep) = false := by simp [hb]
        simp only [stringsSplit, hb, if_false, h, List.length_cons,
          List.count_cons]
        rw [h] at ih
        simp only [List.length_cons] at ih
        simp [ih, hbsep]

theorem truncateString_eq_take (s : GoStr) (n : Nat) :
    truncateString s n = s.take n := by
  unfold truncateString
  by_cases h : s.length > n
  · simp [h]
  · have hle : s.length ≤ n := Nat.le_of_not_lt h
    simp [h, List.take_of_length_le hle]

theorem softwareToUniqueString_eq (t : Software) :
    softwareToUniqueString t
      = t.name ++ sepByte :: (t.version ++ sepByte :: t.source) := by
  simp [softwareToUniqueString, stringsJoin]

theorem decode_encode_eq_take (t : Software)
    (hn : sepByte ∉ t.name) (hv : sepByte ∉ t.version)
    (hs : sepByte ∉ t.source) :
    uniqueStringToSoftware (softwareToUniqueString t)
      = some { id := 0
               name := t.name.take maxSoftwareNameLen
               version := t.version.take maxSoftwareVersionLen
               source := t.source.take maxSoftwareSourceLen } := by
  rw [uniqueStringToSoftware, softwareToUniqueString_eq,
    stringsSplit_append_sep sepByte t.name _ hn,
    stringsSplit_append_sep sepByte t.version _ hv,
    stringsSplit_of_not_mem sepByte t.source hs]
  simp [truncateString_eq_take]

theorem uniqueStringToSoftware_eq_none_iff (s : GoStr) :
    uniqueStringToSoftware s = none
      ↔ (stringsSplit sepByte s).length < 3 := by
  unfold uniqueStringToSoftware
  rcases stringsSplit sepByte s with _ | ⟨p0, _ | ⟨p1, _ | ⟨p2, rest⟩⟩⟩ <;>
    simp

/-- C5: for every software triple whose name and version are at most
255 bytes, whose source is at most 64 bytes, and whose fields contain
no separator byte, decoding the encoded key returns the original
triple (the id field of the decoded record is the zero value). -/
theorem decode_encode_roundtrip_within_limits (t : Software)
    (hn : sepByte ∉ t.name) (hv : sepByte ∉ t.version)
    (hs : sepByte ∉ t.source)
    (hln : t.name.length ≤ maxSoftwareNameLen)
    (hlv : t.version.length ≤ maxSoftwareVersionLen)
    (hls : t.source.length ≤ maxSoftwareSourceLen) :
    uniqueStringToSoftware (softwareToUniqueString t)
      = some { id := 0, name := t.name, version := t.version,
               source := t.source } := by
  rw [decode_encode_eq_take t hn hv hs, List.take_of_length_le hln,
    List.take_of_length_le hlv, List.take_of_length_le hls]

theorem decode_encode_roundtrip_within_limits_witness :
    (sepByte ∉ ([97] : GoStr) ∧ sepByte ∉ ([49, 50] : GoStr)
      ∧ sepByte ∉ ([110] : GoStr)
      ∧ ([97] : GoStr).length ≤ maxSoftwareNameLen
      ∧ ([49, 50] : GoStr).length ≤ maxSoftwareVersionLen
      ∧ ([110] : GoStr).length ≤ maxSoftwareSourceLen)
    ∧ uniqueStringToSoftware (softwareToUniqueString
        { id := 7, name := [97], version := [49, 50], source := [110] })
      = some { id := 0, name := [97], version := [49, 50],
               source := [110] } :=
  ⟨⟨by decide, by decide, by decide, by decide, by decide, by decide⟩,
    decode_encode_roundtrip_within_limits
      { id := 7, name := [97], version := [49, 50], source := [110] }
      (by decide) (by decide) (by decide) (by decide) (by decide)
      (by decide)⟩

/-- C6: for every separator-free triple with some over-length field,
encoding performs no truncation (the key carries the full fields), and
decoding the key truncates each field to its maximum length, leaving
within-limit fields unchanged (`take` at the limit is the identity on
them). -/
theorem decode_encode_truncates_overlength (t : Software)
    (hn : sepByte ∉ t.name) (hv : sepByte ∉ t.version)
    (hs : sepByte ∉ t.source)
    (_hover : maxSoftwareNameLen < t.name.length
      ∨ maxSoftwareVersionLen < t.version.length
      ∨ maxSoftwareSourceLen < t.source.length) :
    softwareToUniqueString t
        = t.name ++ sepByte :: (t.version ++ sepByte :: t.source)
    ∧ uniqueStringToSoftware (softwareToUniqueString t)
        = some { id := 0
                 name := t.name.take maxSoftwareNameLen
                 version := t.version.take maxSoftwareVersionLen
                 source := t.source.take maxSoftwareSourceLen } :=
  ⟨softwareToUniqueString_eq t, decode_encode_eq_take t hn hv hs⟩

/-- A concrete triple whose name is 256 bytes long. -/
def overLenTriple : Software :=
  { id := 0, name := List.replicate 256 65, version := [49],
    source := [115] }

theorem decode_encode_truncates_overlength_witness :
    (sepByte ∉ overLenTriple.name ∧ sepByte ∉ overLenTriple.version
      ∧ sepByte ∉ overLenTriple.source
      ∧ (maxSoftwareNameLen < overLenTriple.name.length
        ∨ maxSoftwareVersionLen < overLenTriple.version.length
        ∨ maxSoftwareSourceLen < overLenTriple.source.length))
    ∧ (softwareToUniqueString overLenTriple
        = overLenTriple.name
            ++ sepByte :: (overLenTriple.version
              ++ sepByte :: overLenTriple.source)
      ∧ uniqueStringToSoftware (softwareToUniqueString overLenTriple)
        = some { id := 0
                 name := overLenTriple.name.take maxSoftwareNameLen
                 version := overLenTriple.version.take maxSoftwareVersionLen
                 source := overLenTriple.source.take maxSoftwareSourceLen }) :=
  ⟨⟨by decide, by decide, by decide, by decide⟩,
    decode_encode_truncates_overlength overLenTriple (by decide)
      (by decide) (by decide) (by decide)⟩

/-- C9: the decoder reads the second and third separator-split parts
unconditionally, so it is defined exactly on inputs holding at least
two separator bytes (it yields `none` iff the input holds fewer), and
every output of the encoder on a separator-free triple holds two
separators, hence decodes. -/
theorem uniqueStringToSoftware_partiality (s : GoStr) (t : Software)
    (h : sepByte ∉ t.name ∧ sepByte ∉ t.version ∧ sepByte ∉ t.source) :
    (uniqueStringToSoftware s = none ↔ s.count sepByte < 2)
    ∧ (uniqueStringToSoftware (softwareToUniqueString t)).isSome
        = true := by
  obtain ⟨hn, hv, hs⟩ := h
  constructor
  · rw [uniqueStringToSoftware_eq_none_iff s, length_stringsSplit]
    omega
  · rw [decode_encode_eq_take t hn hv hs]
    rfl

theorem uniqueStringToSoftware_partiality_witness :
    (sepByte ∉ ([97] : GoStr) ∧ sepByte ∉ ([49] : GoStr)
      ∧ sepByte ∉ ([110] : GoStr))
    ∧ ((uniqueStringToSoftware [1, 2] = none
        ↔ ([1, 2] : GoStr).count sepByte < 2)
      ∧ (uniqueStringToSoftware (softwareToUniqueString
          { id := 0, name := [97], version := [49], source := [110] })).isSome
        = true) :=
  ⟨⟨by decide, by decide, by decide⟩,
    uniqueStringToSoftware_partiality [1, 2]
      { id := 0, name := [97], version := [49], source := [110] }
      ⟨by decide, by decide, by decide⟩⟩

/-! Set-differ lemmas. -/

theorem nothingChanged_true_iff (A B : List Software)
    (hA : (A.map softwareToUniqueString).Nodup)
    (hB : (B.map softwareToUniqueString).Nodup) :
    nothingChanged A B = true
      ↔ (A.map softwareToUniqueString).toFinset
          = (B.map softwareToUniqueString).toFinset := by
  unfold nothingChanged
  constructor
  · intro h
    by_cases hlen : A.length ≠ B.length
    · simp [hlen] at h
    · push_neg at hlen
      rw [if_neg (by omega)] at h
      have hsub : B.map softwareToUniqueString
          ⊆ A.map softwareToUniqueString := by
        intro k hk
        obtain ⟨s, hsB, rfl⟩ := List.mem_map.mp hk
        exact of_decide_eq_true ((List.all_eq_true.mp h) s hsB)
      have hperm : List.Perm (B.map softwareToUniqueString)
          (A.map softwareToUniqueString) :=
        (hB.subperm hsub).perm_of_length_le (by simp [hlen])
      exact (List.toFinset_eq_of_perm _ _ hperm).symm
  · intro h
    have hperm : List.Perm (A.map softwareToUniqueString)
        (B.map softwareToUniqueString) :=
      List.perm_of_nodup_nodup_toFinset_eq hA hB h
    have hlen : A.length = B.length := by
      have := hperm.length_eq
      simpa using this
    rw [if_neg (by omega)]
    apply List.all_eq_true.mpr
    intro s hs
    exact decide_eq_true
      (hperm.symm.subset (List.mem_map_of_mem softwareToUniqueString hs))

/-- C4: on duplicate-free collections the set differ decides equality
of the dedup-key sets, it is symmetric under that precondition, and it
returns false whenever the collection lengths differ. -/
theorem nothingChanged_set_equality (A B : List Software)
    (hA : (A.map softwareToUniqueString).Nodup)
    (hB : (B.map softwareToUniqueString).Nodup) :
    (nothingChanged A B = true
      ↔ (A.map softwareToUniqueString).toFinset
          = (B.map softwareToUniqueString).toFinset)
    ∧ nothingChanged A B = nothingChanged B A
    ∧ (A.length ≠ B.length → nothingChanged A B = false) := by
  refine ⟨nothingChanged_true_iff A B hA hB, ?_, ?_⟩
  · have h1 := nothingChanged_true_iff A B hA hB
    have h2 := nothingChanged_true_iff B A hB hA
    cases hab : nothingChanged A B with
    | true =>
      have hba := h2.mpr (h1.mp hab).symm
      exact hba.symm
    | false =>
      cases hba : nothingChanged B A with
      | true =>
        have hab' := h1.mpr (h2.mp hba).symm
        simp [hab] at hab'
      | false => rfl
  · intro hlen
    unfold nothingChanged
    simp [hlen]

theorem nothingChanged_set_equality_witness :
    ((([⟨1, [97], [49], [97]⟩, ⟨2, [98], [50], [110]⟩] : List Software).map
        softwareToUniqueString).Nodup
      ∧ ((([⟨9, [98], [50], [110]⟩, ⟨3, [97], [49], [97]⟩]) :
          List Software).map softwareToUniqueString).Nodup)
    ∧ ((nothingChanged [⟨1, [97], [49], [97]⟩, ⟨2, [98], [50], [110]⟩]
          [⟨9, [98], [50], [110]⟩, ⟨3, [97], [49], [97]⟩] = true
        ↔ (([⟨1, [97], [49], [97]⟩, ⟨2, [98], [50], [110]⟩] :
            List Software).map softwareToUniqueString).toFinset
          = (([⟨9, [98], [50], [110]⟩, ⟨3, [97], [49], [97]⟩] :
            List Software).map softwareToUniqueString).toFinset)
      ∧ nothingChanged [⟨1, [97], [49], [97]⟩, ⟨2, [98], [50], [110]⟩]
          [⟨9, [98], [50], [110]⟩, ⟨3, [97], [49], [97]⟩]
        = nothingChanged [⟨9, [98], [50], [110]⟩, ⟨3, [97], [49], [97]⟩]
          [⟨1, [97], [49], [97]⟩, ⟨2, [98], [50], [110]⟩]
      ∧ (([⟨1, [97], [49], [97]⟩, ⟨2, [98], [50], [110]⟩] :
            List Software).length
          ≠ ([⟨9, [98], [50], [110]⟩, ⟨3, [97], [49], [97]⟩] :
            List Software).length
        → nothingChanged [⟨1, [97], [49], [97]⟩, ⟨2, [98], [50], [110]⟩]
            [⟨9, [98], [50], [110]⟩, ⟨3, [97], [49], [97]⟩] = false)) :=
  ⟨⟨by decide, by decide⟩,
    nothingChanged_set_equality
      [⟨1, [97], [49], [97]⟩, ⟨2, [98], [50], [110]⟩]
      [⟨9, [98], [50], [110]⟩, ⟨3, [97], [49], [97]⟩]
      (by decide) (by decide)⟩

/-! Membership-writer, orchestrator and loader theorems. -/

/-- C8: when every key of the current id map is present among the
incoming keys, the delete pass returns without issuing any statement
and without touching the store: no deletion predicate is built. -/
theorem deleteUninstalledHostSoftware_noop_when_subset (hostID : Nat)
    (currentIdmap : List (GoStr × Nat)) (incomingBitmap : List GoStr)
    (st : St) (h : ∀ kv ∈ currentIdmap, kv.1 ∈ incomingBitmap) :
    deleteUninstalledHostSoftware hostID currentIdmap incomingBitmap st
      = (.ok (), st) := by
  have hfil : currentIdmap.filter
      (fun kv => decide (kv.1 ∉ incomingBitmap)) = [] :=
    List.filter_eq_nil_iff.mpr (fun kv hkv => by simp [h kv hkv])
  unfold deleteUninstalledHostSoftware
  simp only [hfil]
  simp

theorem deleteUninstalledHostSoftware_noop_when_subset_witness :
    (∀ kv ∈ ([([97, 0, 49, 0, 97], 3)] : List (GoStr × Nat)),
      kv.1 ∈ ([[97, 0, 49, 0, 97], [98, 0, 50, 0, 110]] : List GoStr))
    ∧ deleteUninstalledHostSoftware 1 [([97, 0, 49, 0, 97], 3)]
        [[97, 0, 49, 0, 97], [98, 0, 50, 0, 110]]
        { data := { software := [], hostSoftware := [(1, 3)], nextId := 4 },
          errs := [], log := [] }
      = (.ok (),
         { data := { software := [], hostSoftware := [(1, 3)], nextId := 4 },
           errs := [], log := [] }) :=
  ⟨by decide,
    deleteUninstalledHostSoftware_noop_when_subset 1
      [([97, 0, 49, 0, 97], 3)]
      [[97, 0, 49, 0, 97], [98, 0, 50, 0, 110]]
      { data := { software := [], hostSoftware := [(1, 3)], nextId := 4 },
        errs := [], log := [] }
      (by decide)⟩

/-- C10: the loader unconditionally resets the aggregate's software
state before reading: the dirty flag comes back false, the collection
equals the persisted rows on success and stays reset on failure, and
the outcome is independent of whatever software state was staged on
the aggregate before the call. -/
theorem loadHostSoftware_resets_state (hostId : Nat)
    (hs₁ hs₂ : HostSoftware) (st : St) :
    (LoadHostSoftware { id := hostId, hostSoftware := hs₁ } st).1.hostSoftware.modified
        = false
    ∧ (LoadHostSoftware { id := hostId, hostSoftware := hs₁ } st).1.hostSoftware.software
        = (match (LoadHostSoftware { id := hostId, hostSoftware := hs₁ } st).2.1 with
           | .ok _ => hostSoftwareRows hostId st.data
           | .error _ => [])
    ∧ LoadHostSoftware { id := hostId, hostSoftware := hs₁ } st
        = LoadHostSoftware { id := hostId, hostSoftware := hs₂ } st := by
  rcases st with ⟨d, errs, lg⟩
  rcases errs with _ | ⟨oe, rest⟩
  · exact ⟨rfl, rfl, rfl⟩
  · rcases oe with _ | e
    · exact ⟨rfl, rfl, rfl⟩
    · exact ⟨rfl, rfl, rfl⟩

/-- C3: with the dirty flag set and an empty staged collection, the
orchestrator opens one transaction and issues exactly one statement,
the bulk deletion of the host's membership rows; it does no diffing,
no catalog resolution, leaves the catalog relation and its counter
unchanged, and clears the dirty flag. -/
theorem saveHostSoftware_empty_incoming_single_delete (host : Host)
    (st : St) (hm : host.hostSoftware.modified = true)
    (hsw : host.hostSoftware.software = []) (herr : st.errs = []) :
    SaveHostSoftware host st
      = ({ host with hostSoftware :=
            { host.hostSoftware with modified := false } },
         (.ok (),
          { data := { st.data with
              hostSoftware := st.data.hostSoftware.filter
                (fun p => decide (p.1 ≠ host.id)) },
            errs := [],
            log := st.log ++ [Op.beginTx]
              ++ [Op.deleteAllHostSoftware host.id] })) := by
  rcases host with ⟨hid, ⟨sw, m⟩⟩
  rcases st with ⟨⟨cat, mem, nid⟩, errs, lg⟩
  simp only at hm hsw herr
  subst hm hsw herr
  rfl

theorem saveHostSoftware_empty_incoming_single_delete_witness :
    ((⟨7, ⟨[], true⟩⟩ : Host).hostSoftware.modified = true
      ∧ (⟨7, ⟨[], true⟩⟩ : Host).hostSoftware.software = []
      ∧ ({ data := ⟨[⟨3, [97], [49], [97]⟩], [(7, 3), (8, 3)], 4⟩,
           errs := [], log := [] } : St).errs = [])
    ∧ SaveHostSoftware ⟨7, ⟨[], true⟩⟩
        { data := ⟨[⟨3, [97], [49], [97]⟩], [(7, 3), (8, 3)], 4⟩,
          errs := [], log := [] }
      = (⟨7, ⟨[], false⟩⟩,
         (.ok (),
          { data := ⟨[⟨3, [97], [49], [97]⟩],
              ([(7, 3), (8, 3)] : List (Nat × Nat)).filter
                (fun p => decide (p.1 ≠ 7)), 4⟩,
            errs := [],
            log := ([] : List Op) ++ [Op.beginTx]
              ++ [Op.deleteAllHostSoftware 7] })) :=
  ⟨⟨rfl, rfl, rfl⟩,
    saveHostSoftware_empty_incoming_single_delete ⟨7, ⟨[], true⟩⟩
      { data := ⟨[⟨3, [97], [49], [97]⟩], [(7, 3), (8, 3)], 4⟩,
        errs := [], log := [] } rfl rfl rfl⟩

/-- C2: for a modified aggregate the orchestrator clears the dirty
flag exactly when the transaction body committed; on any surfaced
error the flag stays set and the error comes back wrapped with the
operation context. -/
theorem saveHostSoftware_modified_iff_commit (host : Host) (st : St)
    (hm : host.hostSoftware.modified = true) :
    ((SaveHostSoftware host st).2.1 = .ok ()
      ↔ (SaveHostSoftware host st).1.hostSoftware.modified = false)
    ∧ ∀ e, (SaveHostSoftware host st).2.1 = .error e
      → (SaveHostSoftware host st).1.hostSoftware.modified = true
        ∧ ∃ e₀, e = wrapErr e₀ msgSaveHostSoftware := by
  unfold SaveHostSoftware
  rcases hw : withRetryTxx (saveHostSoftwareTx host) st with ⟨r, st'⟩
  cases r with
  | ok u =>
    cases u
    simp [hm, hw]
  | error e =>
    simp [hm, hw]
    exact ⟨e, rfl⟩

theorem saveHostSoftware_modified_iff_commit_witness :
    ((⟨1, ⟨[], true⟩⟩ : Host).hostSoftware.modified = true)
    ∧ (((SaveHostSoftware ⟨1, ⟨[], true⟩⟩
          { data := ⟨[], [(1, 4)], 2⟩, errs := [], log := [] }).2.1 = .ok ()
        ↔ (SaveHostSoftware ⟨1, ⟨[], true⟩⟩
            { data := ⟨[], [(1, 4)], 2⟩, errs := [],
              log := [] }).1.hostSoftware.modified = false)
      ∧ ∀ e, (SaveHostSoftware ⟨1, ⟨[], true⟩⟩
          { data := ⟨[], [(1, 4)], 2⟩, errs := [], log := [] }).2.1
            = .error e
        → (SaveHostSoftware ⟨1, ⟨[], true⟩⟩
            { data := ⟨[], [(1, 4)], 2⟩, errs := [],
              log := [] }).1.hostSoftware.modified = true
          ∧ ∃ e₀, e = wrapErr e₀ msgSaveHostSoftware) :=
  ⟨rfl,
    saveHostSoftware_modified_iff_commit ⟨1, ⟨[], true⟩⟩
      { data := ⟨[], [(1, 4)], 2⟩, errs := [], log := [] } rfl⟩

theorem saveHostSoftware_ok_not_modified (host : Host) (st : St)
    (h : (SaveHostSoftware host st).2.1 = .ok ()) :
    (SaveHostSoftware host st).1.hostSoftware.modified = false := by
  unfold SaveHostSoftware at h ⊢
  by_cases hm : host.hostSoftware.modified = false
  · simp [hm]
  · rcases hw : withRetryTxx (saveHostSoftwareTx host) st with ⟨r, st'⟩
    cases r with
    | ok u => simp [hm, hw]
    | error e => simp [hm, hw] at h

theorem saveHostSoftware_not_modified_noop (host : Host) (st : St)
    (hm : host.hostSoftware.modified = false) :
    SaveHostSoftware host st = (host, (.ok (), st)) := by
  simp [SaveHostSoftware, hm]

/-- C7: after a successful save, the aggregate's dirty flag is false,
and saving again returns success immediately with the store state
untouched: no statement is logged, no transaction is opened, and the
flag stays false. -/
theorem saveHostSoftware_idempotent (host : Host) (st : St)
    (h : (SaveHostSoftware host st).2.1 = .ok ()) :
    (SaveHostSoftware host st).1.hostSoftware.modified = false
    ∧ SaveHostSoftware (SaveHostSoftware host st).1
        (SaveHostSoftware host st).2.2
      = ((SaveHostSoftware host st).1,
         (.ok (), (SaveHostSoftware host st).2.2)) := by
  have h1 := saveHostSoftware_ok_not_modified host st h
  exact ⟨h1, saveHostSoftware_not_modified_noop _ _ h1⟩

theorem saveHostSoftware_idempotent_witness :
    ((SaveHostSoftware ⟨1, ⟨[], true⟩⟩
        { data := ⟨[], [(1, 4)], 2⟩, errs := [], log := [] }).2.1
      = .ok ())
    ∧ ((SaveHostSoftware ⟨1, ⟨[], true⟩⟩
          { data := ⟨[], [(1, 4)], 2⟩, errs := [],
            log := [] }).1.hostSoftware.modified = false
      ∧ SaveHostSoftware
          (SaveHostSoftware ⟨1, ⟨[], true⟩⟩
            { data := ⟨[], [(1, 4)], 2⟩, errs := [], log := [] }).1
          (SaveHostSoftware ⟨1, ⟨[], true⟩⟩
            { data := ⟨[], [(1, 4)], 2⟩, errs := [], log := [] }).2.2
        = ((SaveHostSoftware ⟨1, ⟨[], true⟩⟩
            { data := ⟨[], [(1, 4)], 2⟩, errs := [], log := [] }).1,
           (.ok (),
            (SaveHostSoftware ⟨1, ⟨[], true⟩⟩
              { data := ⟨[], [(1, 4)], 2⟩, errs := [],
                log := [] }).2.2))) :=
  ⟨rfl,
    saveHostSoftware_idempotent ⟨1, ⟨[], true⟩⟩
      { data := ⟨[], [(1, 4)], 2⟩, errs := [], log := [] } rfl⟩

/-- The triple two racing resolvers observe for the first time. -/
def raceTriple : Software :=
  { id := 0, name := [97], version := [49], source := [97, 112, 116] }

/-- The catalog row the concurrent transaction commits (id 1). -/
def raceRow : Software :=
  { id := 1, name := [97], version := [49], source := [97, 112, 116] }

/-- An initially empty store in which the race runs. -/
def raceSt : St :=
  { data := { software := [], hostSoftware := [], nextId := 2 },
    errs := [], log := [] }

/-- C1 failing run: when the concurrent transaction wins the race, the
resolver's INSERT IGNORE is a no-op, and the code returns the
driver-reported last-insert id 0 — not the identifier 1 of the
existing row — issuing no second lookup by the triple (the log holds
exactly one SELECT followed by the ignored INSERT). -/
theorem getOrGenerateSoftwareId_race_trusts_last_insert_id :
    (getOrGenerateSoftwareIdRaced raceRow raceTriple raceSt).1 = .ok 0
    ∧ (getOrGenerateSoftwareIdRaced raceRow raceTriple raceSt).2.data.software
        = [raceRow]
    ∧ raceRow.id = 1
    ∧ (∀ r ∈ (getOrGenerateSoftwareIdRaced raceRow raceTriple
        raceSt).2.data.software, r.id ≠ 0)
    ∧ (getOrGenerateSoftwareIdRaced raceRow raceTriple raceSt).2.log
      = [Op.selectSoftwareByTriple raceTriple.name raceTriple.version
           raceTriple.source,
         Op.insertIgnoreSoftware raceTriple.name raceTriple.version
           raceTriple.source] := by
  refine ⟨rfl, rfl, rfl, by decide, rfl⟩

end FleetSoftware
